import Mathlib

/-!
Verification of the cart-to-order and inventory-reconciliation engine of the
wallpaper store (store/models.py and store/views.py).

The persistent relational state (Product, Cart/CartItem, Order/OrderItem) is
embedded as lists of records; each request handler becomes a function from a
state to a new state paired with an optional user-facing error, mirroring the
fact that the handlers commit whatever they saved before returning, whether or
not an error message was emitted.
-/

namespace Store

/-- Embeds `Product` (models.py): only the fields the engine reads or writes.
`stock` is an integer so that negativity is expressible; the source declares
it as a non-negative column and the invariant is proved below. -/
structure Product where
  id : Nat
  price : Int
  stock : Int
  deriving DecidableEq

/-- Embeds `CartItem` (models.py): a line of the single user's cart.
The (cart, product) pair is unique in the source, so lines are keyed by
`productId`. -/
structure CartLine where
  productId : Nat
  quantity : Nat
  deriving DecidableEq

/-- Embeds `Order.STATUS_CHOICES` (models.py). -/
inductive OrderStatus
  | new
  | processing
  | paid
  | shipped
  | completed
  | cancelled
  deriving DecidableEq

/-- Embeds `OrderItem` (models.py): frozen (product, quantity, price) line. -/
structure OrderLine where
  productId : Nat
  quantity : Nat
  price : Int
  deriving DecidableEq

/-- Embeds `Order` (models.py): the fields the engine reads or writes. -/
structure Order where
  id : Nat
  status : OrderStatus
  deliveryMethod : String
  paymentMethod : String
  totalPrice : Int
  items : List OrderLine
  deriving DecidableEq

/-- The persistent store, restricted to one user's cart and the orders. -/
structure State where
  products : List Product
  cart : List CartLine
  orders : List Order
  nextOrderId : Nat
  deriving DecidableEq

/-- The user-facing error taxonomy (spec section 7); the stock errors carry
the product they name in the rendered message. -/
inductive Err
  | OutOfStock (productId : Nat)
  | InsufficientStock (productId : Nat)
  | EmptyCart
  | InvalidTransition
  | NotFound
  deriving DecidableEq

def deliveryStr : String := "delivery"

def pickupStr : String := "pickup"

def onlineStr : String := "online"

/-- The flat delivery surcharge added in `checkout` (views.py line 185). -/
def delivery_fee : Int := 500

/-- Row lookup by primary key, as the ORM `get` / FK dereference. -/
def findProduct (ps : List Product) (pid : Nat) : Option Product :=
  ps.find? (fun p => p.id == pid)

/-- The stock the store reports for a product id (0 when the row is absent,
which no reachable state produces). -/
def stockOf (ps : List Product) (pid : Nat) : Int :=
  match findProduct ps pid with
  | some p => p.stock
  | none => 0

/-- The price the store reports for a product id. -/
def priceOf (ps : List Product) (pid : Nat) : Int :=
  match findProduct ps pid with
  | some p => p.price
  | none => 0

/-- One `product.stock += d; product.save()` on the row with the given id. -/
def bump (pid : Nat) (d : Int) (p : Product) : Product :=
  if p.id == pid then { p with stock := p.stock + d } else p

/-- The product table after `stock += d` on the row with the given id. -/
def adjStock (ps : List Product) (pid : Nat) (d : Int) : List Product :=
  ps.map (bump pid d)

/-- Embeds `add_to_cart` (views.py lines 100-126): the OutOfStock guard on
`product.stock <= 0`, then get_or_create of the cart line; an existing line
is incremented by one under the `quantity + 1 > stock` ceiling, a fresh line
is created with quantity 1 and deleted again if `1 > stock`. -/
def add_to_cart (s : State) (pid : Nat) : State × Option Err :=
  match findProduct s.products pid with
  | none => (s, some Err.NotFound)
  | some product =>
    if product.stock ≤ 0 then (s, some (Err.OutOfStock pid))
    else
      match s.cart.find? (fun l => l.productId == pid) with
      | some item =>
        if (item.quantity : Int) + 1 > product.stock then
          (s, some (Err.InsufficientStock pid))
        else
          ({ s with cart := s.cart.map (fun l =>
              if l.productId == pid then { l with quantity := l.quantity + 1 } else l) },
           none)
      | none =>
        -- get_or_create made the line with the default quantity 1; the source
        -- then deletes it again when that quantity exceeds the stock
        if ((1 : Nat) : Int) > product.stock then (s, some (Err.InsufficientStock pid))
        else ({ s with cart := s.cart ++ [⟨pid, 1⟩] }, none)

/-- Embeds `update_cart_item` (views.py lines 135-151): reject when the posted
quantity exceeds the stock, set it when positive, delete the line otherwise. -/
def update_cart_item (s : State) (pid : Nat) (quantity : Int) : State × Option Err :=
  match s.cart.find? (fun l => l.productId == pid) with
  | none => (s, some Err.NotFound)
  | some _ =>
    match findProduct s.products pid with
    | none => (s, some Err.NotFound)
    | some product =>
      if quantity > product.stock then (s, some (Err.InsufficientStock pid))
      else if quantity > 0 then
        ({ s with cart := s.cart.map (fun l =>
            if l.productId == pid then { l with quantity := quantity.toNat } else l) },
         none)
      else
        ({ s with cart := s.cart.filter (fun l => !(l.productId == pid)) }, none)

/-- Embeds `remove_from_cart` (views.py lines 128-133): unconditional deletion
of an owned line; absence surfaces as not-found. -/
def remove_from_cart (s : State) (pid : Nat) : State × Option Err :=
  match s.cart.find? (fun l => l.productId == pid) with
  | none => (s, some Err.NotFound)
  | some _ =>
    ({ s with cart := s.cart.filter (fun l => !(l.productId == pid)) }, none)

/-- Embeds the pre-order validation loop of `checkout` (views.py lines
161-165): the first line whose quantity exceeds its product's stock aborts
with the product named. -/
def validate_cart (ps : List Product) : List CartLine → Option Err
  | [] => none
  | l :: rest =>
    match findProduct ps l.productId with
    | none => some Err.NotFound
    | some p =>
      if (l.quantity : Int) > p.stock then some (Err.InsufficientStock l.productId)
      else validate_cart ps rest

/-- Embeds `CartItem.total_price` (models.py line 168): price times quantity. -/
def line_total (ps : List Product) (l : CartLine) : Int :=
  priceOf ps l.productId * l.quantity

/-- Embeds `Cart.total_price` (models.py lines 140-142): sum of line totals. -/
def cart_total_price (ps : List Product) (cart : List CartLine) : Int :=
  (cart.map (line_total ps)).sum

/-- Embeds the order-materialization loop of `checkout` (views.py lines
192-203): per cart line, create one frozen OrderItem at the product's current
price, then decrement that product's stock. -/
def materialize (ps : List Product) : List CartLine → List OrderLine × List Product
  | [] => ([], ps)
  | l :: rest =>
    let item : OrderLine := ⟨l.productId, l.quantity, priceOf ps l.productId⟩
    let ps1 := adjStock ps l.productId (-(l.quantity : Int))
    let rec1 := materialize ps1 rest
    (item :: rec1.1, rec1.2)

/-- Embeds the POST path of `checkout` (views.py lines 153-209): empty-cart
guard, per-line stock re-validation, order creation with the flat delivery
fee on the raw posted method, item materialization with stock depletion, and
cart clearing; returns the new order's id. -/
def checkout (s : State) (dm pm : Option String) : State × Except Err Nat :=
  if s.cart.isEmpty then (s, Except.error Err.EmptyCart)
  else
    match validate_cart s.products s.cart with
    | some e => (s, Except.error e)
    | none =>
      let total := cart_total_price s.products s.cart +
        (if dm = some deliveryStr then delivery_fee else 0)
      let mat := materialize s.products s.cart
      let order : Order :=
        { id := s.nextOrderId
          status := OrderStatus.new
          deliveryMethod := dm.getD pickupStr
          paymentMethod := pm.getD onlineStr
          totalPrice := total
          items := mat.1 }
      ({ products := mat.2
         cart := []
         orders := s.orders ++ [order]
         nextOrderId := s.nextOrderId + 1 },
       Except.ok order.id)

/-- Embeds the restock loops (views.py lines 338-341, 480-483, 696-699):
`product.stock += item.quantity` for every order line. -/
def restock_items (ps : List Product) (items : List OrderLine) : List Product :=
  items.foldl (fun acc l => adjStock acc l.productId (l.quantity : Int)) ps

/-- The order table after `order.status = st; order.save()` on the given id. -/
def set_order_status (orders : List Order) (oid : Nat) (st : OrderStatus) : List Order :=
  orders.map (fun o => if o.id == oid then { o with status := st } else o)

/-- Embeds `cancel_order` (views.py lines 332-349): only a `new` order may be
cancelled by its user; cancellation restores stock per line and sets the
status, anything else is rejected without effect. -/
def cancel_order (s : State) (oid : Nat) : State × Option Err :=
  match s.orders.find? (fun o => o.id == oid) with
  | none => (s, some Err.NotFound)
  | some o =>
    if o.status = OrderStatus.new then
      ({ s with
          products := restock_items s.products o.items
          orders := set_order_status s.orders oid OrderStatus.cancelled },
       none)
    else (s, some Err.InvalidTransition)

/-- Embeds the restore-from-cancellation loop of `admin_order_detail`
(views.py lines 485-492): per line, check `quantity > stock` and return at
the first failure, otherwise decrement and continue. Rows already saved
before a failure stay saved, exactly as the source's early `return` after
per-item `product.save()` calls. -/
def deplete_items (ps : List Product) : List OrderLine → List Product × Option Err
  | [] => (ps, none)
  | l :: rest =>
    match findProduct ps l.productId with
    | none => (ps, some Err.NotFound)
    | some p =>
      if (l.quantity : Int) > p.stock then (ps, some (Err.InsufficientStock l.productId))
      else deplete_items (adjStock ps l.productId (-(l.quantity : Int))) rest

/-- Embeds the status-change logic of `admin_order_detail` (views.py lines
467-520): with a posted status differing from the current one, entering
`cancelled` restores stock, leaving `cancelled` re-depletes under the
per-line check above (keeping any partial decrements on failure and leaving
the status untouched), and any other reassignment has no stock effect. -/
def admin_order_detail (s : State) (oid : Nat) (newStatus : Option OrderStatus) :
    State × Option Err :=
  match s.orders.find? (fun o => o.id == oid) with
  | none => (s, some Err.NotFound)
  | some o =>
    match newStatus with
    | none => (s, none)
    | some st =>
      if st = o.status then (s, none)
      else if st = OrderStatus.cancelled ∧ o.status ≠ OrderStatus.cancelled then
        ({ s with
            products := restock_items s.products o.items
            orders := set_order_status s.orders oid st },
         none)
      else if o.status = OrderStatus.cancelled ∧ st ≠ OrderStatus.cancelled then
        match deplete_items s.products o.items with
        | (ps, some e) => ({ s with products := ps }, some e)
        | (ps, none) =>
          ({ s with products := ps, orders := set_order_status s.orders oid st }, none)
      else ({ s with orders := set_order_status s.orders oid st }, none)

/-- Embeds the POST path of `admin_order_delete` (views.py lines 687-704):
restore stock per line unless the order is already cancelled, then destroy
the order (its items go with it). -/
def admin_order_delete (s : State) (oid : Nat) : State × Option Err :=
  match s.orders.find? (fun o => o.id == oid) with
  | none => (s, some Err.NotFound)
  | some o =>
    let ps :=
      if o.status ≠ OrderStatus.cancelled then restock_items s.products o.items
      else s.products
    ({ s with products := ps, orders := s.orders.filter (fun o2 => !(o2.id == oid)) }, none)

/-- One engine request, as dispatched by urls.py. -/
inductive Op
  | add (pid : Nat)
  | update (pid : Nat) (quantity : Int)
  | remove (pid : Nat)
  | doCheckout (dm pm : Option String)
  | cancel (oid : Nat)
  | setStatus (oid : Nat) (st : Option OrderStatus)
  | deleteOrder (oid : Nat)

/-- The state an operation commits (errors only add a message). -/
def step (s : State) : Op → State
  | Op.add pid => (add_to_cart s pid).1
  | Op.update pid q => (update_cart_item s pid q).1
  | Op.remove pid => (remove_from_cart s pid).1
  | Op.doCheckout dm pm => (checkout s dm pm).1
  | Op.cancel oid => (cancel_order s oid).1
  | Op.setStatus oid st => (admin_order_detail s oid st).1
  | Op.deleteOrder oid => (admin_order_delete s oid).1

/-- Sequential execution of engine operations. -/
def run_ops (s : State) (ops : List Op) : State := ops.foldl step s

/-- Every product row carries a non-negative stock. -/
abbrev stocksNonneg (ps : List Product) : Prop := ∀ p ∈ ps, 0 ≤ p.stock

/-- Primary-key uniqueness of the product table. -/
abbrev productIdsNodup (s : State) : Prop := (s.products.map Product.id).Nodup

/-- The source's `unique_together` on (cart, product). -/
abbrev cartNodup (s : State) : Prop := (s.cart.map CartLine.productId).Nodup

/-- Database well-formedness: unique product rows and unique cart lines. -/
abbrev WF (s : State) : Prop := productIdsNodup s ∧ cartNodup s

/-! ### Basic algebra of single-row stock updates -/

theorem bump_id (pid : Nat) (d : Int) (p : Product) : (bump pid d p).id = p.id := by
  unfold bump; split <;> rfl

theorem bump_price (pid : Nat) (d : Int) (p : Product) : (bump pid d p).price = p.price := by
  unfold bump; split <;> rfl

theorem findProduct_adjStock (ps : List Product) (pid tid : Nat) (d : Int) :
    findProduct (adjStock ps pid d) tid = Option.map (bump pid d) (findProduct ps tid) := by
  induction ps with
  | nil => rfl
  | cons p t ih =>
    simp only [adjStock, List.map_cons, findProduct, List.find?_cons] at *
    by_cases h : p.id == tid
    · rw [bump_id] at *
      simp [h]
    · rw [bump_id] at *
      simp only [h, cond_false]
      exact ih

theorem findProduct_some_id : ∀ (ps : List Product) (pid : Nat) (p : Product),
    findProduct ps pid = some p → p.id = pid
  | [], _, _, h => by cases h
  | q :: t, pid, p, h => by
    by_cases hq : (q.id == pid) = true
    · have hqp : some q = some p := by
        simpa [findProduct, List.find?_cons, hq] using h
      cases hqp
      simpa using hq
    · have h2 : findProduct t pid = some p := by
        simpa [findProduct, List.find?_cons, hq] using h
      exact findProduct_some_id t pid p h2

theorem stockOf_eq_of_find (ps : List Product) (pid : Nat) (p : Product)
    (h : findProduct ps pid = some p) : stockOf ps pid = p.stock := by
  unfold stockOf; rw [h]

theorem stockOf_adjStock_self (ps : List Product) (pid : Nat) (d : Int) (p : Product)
    (h : findProduct ps pid = some p) :
    stockOf (adjStock ps pid d) pid = stockOf ps pid + d := by
  have hp : (p.id == pid) = true := by simp [findProduct_some_id ps pid p h]
  unfold stockOf
  rw [findProduct_adjStock, h]
  simp [bump, hp]

theorem stockOf_adjStock_other (ps : List Product) (pid tid : Nat) (d : Int)
    (h : tid ≠ pid) :
    stockOf (adjStock ps pid d) tid = stockOf ps tid := by
  unfold stockOf
  rw [findProduct_adjStock]
  cases hf : findProduct ps tid with
  | none => rfl
  | some p =>
    have hp : p.id = tid := findProduct_some_id ps tid p hf
    have hnp : (p.id == pid) = false := by simp [hp, h]
    simp [bump, hnp]

theorem priceOf_adjStock (ps : List Product) (pid tid : Nat) (d : Int) :
    priceOf (adjStock ps pid d) tid = priceOf ps tid := by
  unfold priceOf
  rw [findProduct_adjStock]
  cases hf : findProduct ps tid with
  | none => rfl
  | some p => simp [bump_price]

theorem isSome_findProduct_adjStock (ps : List Product) (pid tid : Nat) (d : Int) :
    (findProduct (adjStock ps pid d) tid).isSome = (findProduct ps tid).isSome := by
  rw [findProduct_adjStock]; cases findProduct ps tid <;> rfl

theorem adjStock_map_id (ps : List Product) (pid : Nat) (d : Int) :
    (adjStock ps pid d).map Product.id = ps.map Product.id := by
  unfold adjStock
  rw [List.map_map]
  exact List.map_congr_left (fun p _ => bump_id pid d p)

theorem bump_bump_cancel (pid : Nat) (d : Int) (p : Product) :
    bump pid (-d) (bump pid d p) = p := by
  cases p with
  | mk i pr st =>
    unfold bump
    by_cases h : i == pid <;> simp [h]

theorem adjStock_cancel (ps : List Product) (pid : Nat) (d : Int) :
    adjStock (adjStock ps pid d) pid (-d) = ps := by
  unfold adjStock
  rw [List.map_map]
  have hc : (bump pid (-d)) ∘ (bump pid d) = id := funext (bump_bump_cancel pid d)
  rw [hc, List.map_id]

theorem bump_comm (a b : Nat) (x y : Int) (p : Product) :
    bump b y (bump a x p) = bump a x (bump b y p) := by
  cases p with
  | mk i pr st =>
    unfold bump
    by_cases h1 : i == a <;> by_cases h2 : i == b
    all_goals simp [h1, h2]
    all_goals omega

theorem adjStock_comm (ps : List Product) (a b : Nat) (x y : Int) :
    adjStock (adjStock ps a x) b y = adjStock (adjStock ps b y) a x := by
  unfold adjStock
  rw [List.map_map, List.map_map]
  exact List.map_congr_left (fun p _ => bump_comm a b x y p)

/-! ### Restocking (stock += quantity per order line) -/

theorem restock_items_nil (ps : List Product) : restock_items ps [] = ps := rfl

theorem restock_items_cons (ps : List Product) (l : OrderLine) (rest : List OrderLine) :
    restock_items ps (l :: rest) =
      restock_items (adjStock ps l.productId (l.quantity : Int)) rest := rfl

theorem adjStock_restock_comm : ∀ (items : List OrderLine) (ps : List Product)
    (pid : Nat) (d : Int),
    adjStock (restock_items ps items) pid d = restock_items (adjStock ps pid d) items
  | [], _, _, _ => rfl
  | l :: rest, ps, pid, d => by
    rw [restock_items_cons, restock_items_cons, adjStock_restock_comm rest, adjStock_comm]

theorem isSome_findProduct_restock : ∀ (items : List OrderLine) (ps : List Product)
    (tid : Nat),
    (findProduct (restock_items ps items) tid).isSome = (findProduct ps tid).isSome
  | [], _, _ => rfl
  | l :: rest, ps, tid => by
    rw [restock_items_cons, isSome_findProduct_restock rest, isSome_findProduct_adjStock]

theorem stockOf_adjStock_le (ps : List Product) (pid tid : Nat) (d : Int) (hd : 0 ≤ d) :
    stockOf ps tid ≤ stockOf (adjStock ps pid d) tid := by
  by_cases h : tid = pid
  · subst h
    cases hf : findProduct ps tid with
    | none => simp [stockOf, findProduct_adjStock, hf]
    | some p => rw [stockOf_adjStock_self ps tid d p hf]; omega
  · rw [stockOf_adjStock_other ps pid tid d h]

theorem stockOf_restock_le : ∀ (items : List OrderLine) (ps : List Product) (tid : Nat),
    stockOf ps tid ≤ stockOf (restock_items ps items) tid
  | [], _, _ => le_refl _
  | l :: rest, ps, tid => by
    rw [restock_items_cons]
    exact le_trans
      (stockOf_adjStock_le ps l.productId tid (l.quantity : Int) (Int.natCast_nonneg _))
      (stockOf_restock_le rest _ tid)

theorem stockOf_restock_not_mem : ∀ (items : List OrderLine) (ps : List Product) (tid : Nat),
    tid ∉ items.map OrderLine.productId →
    stockOf (restock_items ps items) tid = stockOf ps tid
  | [], _, _, _ => rfl
  | l :: rest, ps, tid, h => by
    have h2 : tid ≠ l.productId ∧ tid ∉ rest.map OrderLine.productId := by
      simpa [not_or] using h
    rw [restock_items_cons, stockOf_restock_not_mem rest _ tid h2.2,
      stockOf_adjStock_other _ _ _ _ h2.1]

theorem stockOf_restock_of_mem : ∀ (items : List OrderLine) (ps : List Product)
    (l : OrderLine),
    (items.map OrderLine.productId).Nodup → l ∈ items →
    (findProduct ps l.productId).isSome →
    stockOf (restock_items ps items) l.productId =
      stockOf ps l.productId + (l.quantity : Int)
  | [], _, _, _, hmem, _ => absurd hmem (List.not_mem_nil _)
  | a :: rest, ps, l, hNodup, hmem, hpres => by
    have hN : a.productId ∉ rest.map OrderLine.productId ∧
        (rest.map OrderLine.productId).Nodup := by
      rw [List.map_cons, List.nodup_cons] at hNodup
      exact hNodup
    rw [restock_items_cons]
    rcases List.mem_cons.mp hmem with rfl | hm
    · rw [stockOf_restock_not_mem rest _ _ hN.1]
      obtain ⟨p, hp⟩ := Option.isSome_iff_exists.mp hpres
      rw [stockOf_adjStock_self ps l.productId _ p hp, stockOf_eq_of_find ps _ p hp]
    · have hne : l.productId ≠ a.productId := by
        intro he
        exact hN.1 (he ▸ List.mem_map.mpr ⟨l, hm, rfl⟩)
      rw [stockOf_restock_of_mem rest _ l hN.2 hm
            (by rw [isSome_findProduct_adjStock]; exact hpres),
        stockOf_adjStock_other _ _ _ _ hne]

/-! ### Depletion with the interleaved per-line check -/

theorem deplete_restock : ∀ (items : List OrderLine) (ps : List Product),
    (∀ l ∈ items, (findProduct ps l.productId).isSome) →
    (∀ l ∈ items, 0 ≤ stockOf ps l.productId) →
    deplete_items (restock_items ps items) items = (ps, none)
  | [], ps, _, _ => rfl
  | l :: rest, ps, hpres, hnn => by
    have hplv : (findProduct ps l.productId).isSome := hpres l (List.mem_cons_self _ _)
    obtain ⟨p0, hp0⟩ := Option.isSome_iff_exists.mp hplv
    have hX : (findProduct (restock_items ps (l :: rest)) l.productId).isSome := by
      rw [isSome_findProduct_restock]; exact hplv
    obtain ⟨p, hp⟩ := Option.isSome_iff_exists.mp hX
    have hstockX : (l.quantity : Int) ≤ p.stock := by
      have h1 : stockOf (adjStock ps l.productId (l.quantity : Int)) l.productId =
          stockOf ps l.productId + (l.quantity : Int) :=
        stockOf_adjStock_self ps l.productId _ p0 hp0
      have h2 := stockOf_restock_le rest (adjStock ps l.productId (l.quantity : Int)) l.productId
      have h3 := hnn l (List.mem_cons_self _ _)
      have h4 : stockOf (restock_items ps (l :: rest)) l.productId = p.stock :=
        stockOf_eq_of_find _ _ p hp
      rw [restock_items_cons] at h4
      omega
    have hnotover : ¬ ((l.quantity : Int) > p.stock) := by omega
    show deplete_items (restock_items ps (l :: rest)) (l :: rest) = (ps, none)
    simp only [deplete_items, hp]
    rw [if_neg hnotover]
    rw [restock_items_cons, adjStock_restock_comm, adjStock_cancel]
    exact deplete_restock rest ps (fun x hx => hpres x (List.mem_cons_of_mem _ hx))
      (fun x hx => hnn x (List.mem_cons_of_mem _ hx))

/-! ### Non-negativity of stock under the engine's mutations -/

theorem find_of_mem_nodup : ∀ (ps : List Product) (p : Product),
    (ps.map Product.id).Nodup → p ∈ ps → findProduct ps p.id = some p
  | [], _, _, hmem => absurd hmem (List.not_mem_nil _)
  | q :: t, p, hNodup, hmem => by
    have hN : q.id ∉ t.map Product.id ∧ (t.map Product.id).Nodup := by
      rw [List.map_cons, List.nodup_cons] at hNodup
      exact hNodup
    rcases List.mem_cons.mp hmem with rfl | hm
    · simp [findProduct, List.find?_cons]
    · have hne : (q.id == p.id) = false := by
        simp only [beq_eq_false_iff_ne, ne_eq]
        intro he
        exact hN.1 (he ▸ List.mem_map.mpr ⟨p, hm, rfl⟩)
      have ht : findProduct t p.id = some p := find_of_mem_nodup t p hN.2 hm
      simpa [findProduct, List.find?_cons, hne] using ht

theorem stocksNonneg_adjStock_of (ps : List Product) (pid : Nat) (d : Int)
    (hnn : stocksNonneg ps)
    (hcond : ∀ p ∈ ps, p.id = pid → 0 ≤ p.stock + d) :
    stocksNonneg (adjStock ps pid d) := by
  intro p hp
  obtain ⟨q, hq, rfl⟩ := List.mem_map.mp (by simpa [adjStock] using hp)
  unfold bump
  split
  · next h => exact hcond q hq (by simpa using h)
  · exact hnn q hq

theorem stocksNonneg_restock : ∀ (items : List OrderLine) (ps : List Product),
    stocksNonneg ps → stocksNonneg (restock_items ps items)
  | [], _, hnn => hnn
  | l :: rest, ps, hnn => by
    rw [restock_items_cons]
    apply stocksNonneg_restock rest
    apply stocksNonneg_adjStock_of _ _ _ hnn
    intro p _ _
    have h1 := hnn p (by assumption)
    have h2 : (0 : Int) ≤ (l.quantity : Int) := Int.natCast_nonneg _
    omega

theorem stocksNonneg_deplete : ∀ (items : List OrderLine) (ps : List Product),
    (ps.map Product.id).Nodup → stocksNonneg ps →
    stocksNonneg (deplete_items ps items).1
  | [], _, _, hnn => hnn
  | l :: rest, ps, hNodup, hnn => by
    cases hf : findProduct ps l.productId with
    | none =>
      simp only [deplete_items, hf]
      exact hnn
    | some p =>
      by_cases hover : (l.quantity : Int) > p.stock
      · simp only [deplete_items, hf]
        rw [if_pos hover]
        exact hnn
      · simp only [deplete_items, hf]
        rw [if_neg hover]
        apply stocksNonneg_deplete rest _ (by rw [adjStock_map_id]; exact hNodup)
        apply stocksNonneg_adjStock_of _ _ _ hnn
        intro q hq hqid
        have h5 : findProduct ps l.productId = some q := by
          rw [← hqid]
          exact find_of_mem_nodup ps q hNodup hq
        rw [hf] at h5
        injection h5 with h6
        subst h6
        omega

/-! ### Checkout: validation, materialization, depletion -/

theorem validate_cart_of_ok : ∀ (cart : List CartLine) (ps : List Product),
    (∀ l ∈ cart, (findProduct ps l.productId).isSome ∧
      (l.quantity : Int) ≤ stockOf ps l.productId) →
    validate_cart ps cart = none
  | [], _, _ => rfl
  | l :: rest, ps, h => by
    obtain ⟨hp, hle⟩ := h l (List.mem_cons_self _ _)
    obtain ⟨p, hfp⟩ := Option.isSome_iff_exists.mp hp
    rw [stockOf_eq_of_find _ _ _ hfp] at hle
    simp only [validate_cart, hfp]
    rw [if_neg (by omega)]
    exact validate_cart_of_ok rest ps (fun x hx => h x (List.mem_cons_of_mem _ hx))

theorem validate_cart_ok_of_none : ∀ (cart : List CartLine) (ps : List Product),
    validate_cart ps cart = none →
    ∀ l ∈ cart, (findProduct ps l.productId).isSome ∧
      (l.quantity : Int) ≤ stockOf ps l.productId
  | [], _, _, l, hl => absurd hl (List.not_mem_nil _)
  | a :: rest, ps, h, l, hl => by
    cases hf : findProduct ps a.productId with
    | none => simp [validate_cart, hf] at h
    | some p =>
      simp only [validate_cart, hf] at h
      by_cases hover : (a.quantity : Int) > p.stock
      · rw [if_pos hover] at h
        cases h
      · rw [if_neg hover] at h
        rcases List.mem_cons.mp hl with rfl | hm
        · refine ⟨by rw [hf]; rfl, ?_⟩
          rw [stockOf_eq_of_find _ _ _ hf]
          omega
        · exact validate_cart_ok_of_none rest ps h l hm

theorem validate_cart_error : ∀ (cart : List CartLine) (ps : List Product),
    (∀ l ∈ cart, (findProduct ps l.productId).isSome) →
    (∃ l ∈ cart, (l.quantity : Int) > stockOf ps l.productId) →
    ∃ pid, validate_cart ps cart = some (Err.InsufficientStock pid) ∧
      ∃ l ∈ cart, l.productId = pid ∧ (l.quantity : Int) > stockOf ps l.productId
  | [], _, _, hbad => by
    rcases hbad with ⟨l, hl, _⟩
    exact absurd hl (List.not_mem_nil _)
  | a :: rest, ps, hpres, hbad => by
    obtain ⟨p, hp⟩ := Option.isSome_iff_exists.mp (hpres a (List.mem_cons_self _ _))
    have hps : stockOf ps a.productId = p.stock := stockOf_eq_of_find _ _ _ hp
    by_cases hover : (a.quantity : Int) > p.stock
    · refine ⟨a.productId, ?_, a, List.mem_cons_self _ _, rfl, by omega⟩
      simp only [validate_cart, hp]
      rw [if_pos hover]
    · have hbad2 : ∃ l ∈ rest, (l.quantity : Int) > stockOf ps l.productId := by
        rcases hbad with ⟨l, hl, hq⟩
        rcases List.mem_cons.mp hl with rfl | hm
        · omega
        · exact ⟨l, hm, hq⟩
      obtain ⟨pid, heq, l, hm, hpid, hq⟩ := validate_cart_error rest ps
        (fun x hx => hpres x (List.mem_cons_of_mem _ hx)) hbad2
      refine ⟨pid, ?_, l, List.mem_cons_of_mem _ hm, hpid, hq⟩
      simp only [validate_cart, hp]
      rwa [if_neg hover]

theorem materialize_fst : ∀ (cart : List CartLine) (ps : List Product),
    (materialize ps cart).1 =
      cart.map (fun l => OrderLine.mk l.productId l.quantity (priceOf ps l.productId))
  | [], _ => rfl
  | l :: rest, ps => by
    simp only [materialize, List.map_cons, List.cons.injEq]
    refine ⟨trivial, ?_⟩
    rw [materialize_fst rest]
    exact List.map_congr_left (fun x _ => by rw [priceOf_adjStock])

theorem materialize_snd : ∀ (cart : List CartLine) (ps : List Product),
    (materialize ps cart).2 =
      cart.foldl (fun acc l => adjStock acc l.productId (-(l.quantity : Int))) ps
  | [], _ => rfl
  | l :: rest, ps => by
    simp only [materialize, List.foldl_cons]
    exact materialize_snd rest _

theorem stocksNonneg_decfold : ∀ (cart : List CartLine) (ps : List Product),
    (ps.map Product.id).Nodup → (cart.map CartLine.productId).Nodup →
    (∀ l ∈ cart, (l.quantity : Int) ≤ stockOf ps l.productId) →
    stocksNonneg ps →
    stocksNonneg
      (cart.foldl (fun acc l => adjStock acc l.productId (-(l.quantity : Int))) ps)
  | [], _, _, _, _, hnn => hnn
  | l :: rest, ps, hNodupP, hNodupC, hle, hnn => by
    have hN : l.productId ∉ rest.map CartLine.productId ∧
        (rest.map CartLine.productId).Nodup := by
      rw [List.map_cons, List.nodup_cons] at hNodupC
      exact hNodupC
    simp only [List.foldl_cons]
    apply stocksNonneg_decfold rest _ (by rw [adjStock_map_id]; exact hNodupP) hN.2
    · intro x hx
      have hne : x.productId ≠ l.productId := by
        intro he
        exact hN.1 (he ▸ List.mem_map.mpr ⟨x, hx, rfl⟩)
      rw [stockOf_adjStock_other _ _ _ _ hne]
      exact hle x (List.mem_cons_of_mem _ hx)
    · apply stocksNonneg_adjStock_of _ _ _ hnn
      intro q hq hqid
      have h5 : findProduct ps l.productId = some q := by
        rw [← hqid]
        exact find_of_mem_nodup ps q hNodupP hq
      have h6 := hle l (List.mem_cons_self _ _)
      rw [stockOf_eq_of_find _ _ _ h5] at h6
      omega

theorem stockOf_decfold_not_mem : ∀ (cart : List CartLine) (ps : List Product) (tid : Nat),
    tid ∉ cart.map CartLine.productId →
    stockOf (cart.foldl (fun acc l => adjStock acc l.productId (-(l.quantity : Int))) ps) tid =
      stockOf ps tid
  | [], _, _, _ => rfl
  | l :: rest, ps, tid, h => by
    have h2 : tid ≠ l.productId ∧ tid ∉ rest.map CartLine.productId := by
      simpa [not_or] using h
    simp only [List.foldl_cons]
    rw [stockOf_decfold_not_mem rest _ tid h2.2, stockOf_adjStock_other _ _ _ _ h2.1]

theorem stockOf_decfold_of_mem : ∀ (cart : List CartLine) (ps : List Product)
    (l : CartLine),
    (cart.map CartLine.productId).Nodup → l ∈ cart →
    (findProduct ps l.productId).isSome →
    stockOf (cart.foldl (fun acc x => adjStock acc x.productId (-(x.quantity : Int))) ps)
        l.productId =
      stockOf ps l.productId - (l.quantity : Int)
  | [], _, _, _, hmem, _ => absurd hmem (List.not_mem_nil _)
  | a :: rest, ps, l, hNodup, hmem, hpres => by
    have hN : a.productId ∉ rest.map CartLine.productId ∧
        (rest.map CartLine.productId).Nodup := by
      rw [List.map_cons, List.nodup_cons] at hNodup
      exact hNodup
    simp only [List.foldl_cons]
    rcases List.mem_cons.mp hmem with rfl | hm
    · rw [stockOf_decfold_not_mem rest _ _ hN.1]
      obtain ⟨p, hp⟩ := Option.isSome_iff_exists.mp hpres
      rw [stockOf_adjStock_self ps l.productId _ p hp]
      omega
    · have hne : l.productId ≠ a.productId := by
        intro he
        exact hN.1 (he ▸ List.mem_map.mpr ⟨l, hm, rfl⟩)
      rw [stockOf_decfold_of_mem rest _ l hN.2 hm
            (by rw [isSome_findProduct_adjStock]; exact hpres),
        stockOf_adjStock_other _ _ _ _ hne]

/-! ### Depletion failure (restore from cancellation) -/

theorem deplete_items_error : ∀ (items : List OrderLine) (ps : List Product),
    (∀ l ∈ items, (findProduct ps l.productId).isSome) →
    (items.map OrderLine.productId).Nodup →
    (∃ l ∈ items, (l.quantity : Int) > stockOf ps l.productId) →
    ∃ pid ps2, deplete_items ps items = (ps2, some (Err.InsufficientStock pid)) ∧
      ∃ l ∈ items, l.productId = pid ∧ (l.quantity : Int) > stockOf ps l.productId
  | [], _, _, _, hbad => by
    rcases hbad with ⟨l, hl, _⟩
    exact absurd hl (List.not_mem_nil _)
  | a :: rest, ps, hpres, hNodup, hbad => by
    have hN : a.productId ∉ rest.map OrderLine.productId ∧
        (rest.map OrderLine.productId).Nodup := by
      rw [List.map_cons, List.nodup_cons] at hNodup
      exact hNodup
    obtain ⟨p, hp⟩ := Option.isSome_iff_exists.mp (hpres a (List.mem_cons_self _ _))
    have hps : stockOf ps a.productId = p.stock := stockOf_eq_of_find _ _ _ hp
    by_cases hover : (a.quantity : Int) > p.stock
    · refine ⟨a.productId, ps, ?_, a, List.mem_cons_self _ _, rfl, by omega⟩
      simp only [deplete_items, hp]
      rw [if_pos hover]
    · have hbad2 : ∃ l ∈ rest, (l.quantity : Int) >
          stockOf (adjStock ps a.productId (-(a.quantity : Int))) l.productId := by
        rcases hbad with ⟨l, hl, hq⟩
        rcases List.mem_cons.mp hl with rfl | hm
        · omega
        · have hne : l.productId ≠ a.productId := by
            intro he
            exact hN.1 (he ▸ List.mem_map.mpr ⟨l, hm, rfl⟩)
          exact ⟨l, hm, by rwa [stockOf_adjStock_other _ _ _ _ hne]⟩
      obtain ⟨pid, ps2, heq, l, hm, hpid, hq⟩ :=
        deplete_items_error rest (adjStock ps a.productId (-(a.quantity : Int)))
          (fun x hx => by
            rw [isSome_findProduct_adjStock]
            exact hpres x (List.mem_cons_of_mem _ hx))
          hN.2 hbad2
      have hne2 : l.productId ≠ a.productId := by
        intro he
        exact hN.1 (he ▸ List.mem_map.mpr ⟨l, hm, rfl⟩)
      refine ⟨pid, ps2, ?_, l, List.mem_cons_of_mem _ hm, hpid, ?_⟩
      · simp only [deplete_items, hp]
        rwa [if_neg hover]
      · rwa [stockOf_adjStock_other _ _ _ _ hne2] at hq

/-! ### Order lookup under status updates -/

theorem find_order_some_id : ∀ (orders : List Order) (oid : Nat) (o : Order),
    orders.find? (fun o2 => o2.id == oid) = some o → o.id = oid
  | [], _, _, h => by cases h
  | q :: t, oid, o, h => by
    by_cases hq : (q.id == oid) = true
    · have hqo : some q = some o := by
        simpa [List.find?_cons, hq] using h
      cases hqo
      simpa using hq
    · have h2 : t.find? (fun o2 => o2.id == oid) = some o := by
        simpa [List.find?_cons, hq] using h
      exact find_order_some_id t oid o h2

theorem find_set_order_status : ∀ (orders : List Order) (oid : Nat) (st : OrderStatus),
    (set_order_status orders oid st).find? (fun o2 => o2.id == oid) =
      Option.map (fun o => if o.id == oid then { o with status := st } else o)
        (orders.find? (fun o2 => o2.id == oid))
  | [], _, _ => rfl
  | q :: t, oid, st => by
    have hid : (if q.id == oid then { q with status := st } else q).id = q.id := by
      split <;> rfl
    simp only [set_order_status, List.map_cons, List.find?_cons] at *
    by_cases h : (q.id == oid) = true
    · have h2 : q.id = oid := by simpa using h
      rw [hid]
      simp [h, h2]
    · rw [hid]
      simp only [h, cond_false]
      exact find_set_order_status t oid st

theorem find_set_order_status_some (orders : List Order) (oid : Nat) (st : OrderStatus)
    (o : Order) (h : orders.find? (fun o2 => o2.id == oid) = some o) :
    (set_order_status orders oid st).find? (fun o2 => o2.id == oid) =
      some { o with status := st } := by
  rw [find_set_order_status, h]
  have h2 : o.id = oid := find_order_some_id orders oid o h
  simp [h2]

/-! ### What each operation does to the product table and the cart -/

theorem restock_map_id : ∀ (items : List OrderLine) (ps : List Product),
    (restock_items ps items).map Product.id = ps.map Product.id
  | [], _ => rfl
  | l :: rest, ps => by
    rw [restock_items_cons, restock_map_id rest, adjStock_map_id]

theorem deplete_map_id : ∀ (items : List OrderLine) (ps : List Product),
    ((deplete_items ps items).1).map Product.id = ps.map Product.id
  | [], _ => rfl
  | l :: rest, ps => by
    cases hf : findProduct ps l.productId with
    | none => simp only [deplete_items, hf]
    | some p =>
      by_cases hover : (l.quantity : Int) > p.stock
      · simp only [deplete_items, hf]
        rw [if_pos hover]
      · simp only [deplete_items, hf]
        rw [if_neg hover, deplete_map_id rest, adjStock_map_id]

theorem decfold_map_id : ∀ (cart : List CartLine) (ps : List Product),
    ((cart.foldl (fun acc l => adjStock acc l.productId (-(l.quantity : Int))) ps).map
      Product.id) = ps.map Product.id
  | [], _ => rfl
  | l :: rest, ps => by
    simp only [List.foldl_cons]
    rw [decfold_map_id rest, adjStock_map_id]

theorem add_to_cart_products (s : State) (pid : Nat) :
    (add_to_cart s pid).1.products = s.products := by
  unfold add_to_cart
  repeat' split
  all_goals rfl

theorem update_cart_item_products (s : State) (pid : Nat) (q : Int) :
    (update_cart_item s pid q).1.products = s.products := by
  unfold update_cart_item
  repeat' split
  all_goals rfl

theorem remove_from_cart_products (s : State) (pid : Nat) :
    (remove_from_cart s pid).1.products = s.products := by
  unfold remove_from_cart
  repeat' split
  all_goals rfl

theorem checkout_products (s : State) (dm pm : Option String) :
    (checkout s dm pm).1.products = s.products ∨
    ((checkout s dm pm).1.products = (materialize s.products s.cart).2 ∧
      validate_cart s.products s.cart = none) := by
  unfold checkout
  split
  · exact Or.inl rfl
  · split
    · exact Or.inl rfl
    · next hv => exact Or.inr ⟨rfl, hv⟩

theorem cancel_order_products (s : State) (oid : Nat) :
    (cancel_order s oid).1.products = s.products ∨
    ∃ items, (cancel_order s oid).1.products = restock_items s.products items := by
  unfold cancel_order
  split
  · exact Or.inl rfl
  · split
    · exact Or.inr ⟨_, rfl⟩
    · exact Or.inl rfl

theorem admin_order_detail_products (s : State) (oid : Nat) (st? : Option OrderStatus) :
    (admin_order_detail s oid st?).1.products = s.products ∨
    (∃ items, (admin_order_detail s oid st?).1.products = restock_items s.products items) ∨
    (∃ items,
      (admin_order_detail s oid st?).1.products = (deplete_items s.products items).1) := by
  unfold admin_order_detail
  split
  · exact Or.inl rfl
  · split
    · exact Or.inl rfl
    · split
      · exact Or.inl rfl
      · split
        · exact Or.inr (Or.inl ⟨_, rfl⟩)
        · split
          · split
            · next heq => exact Or.inr (Or.inr ⟨_, (congrArg Prod.fst heq).symm⟩)
            · next heq => exact Or.inr (Or.inr ⟨_, (congrArg Prod.fst heq).symm⟩)
          · exact Or.inl rfl

theorem admin_order_delete_products (s : State) (oid : Nat) :
    (admin_order_delete s oid).1.products = s.products ∨
    ∃ items, (admin_order_delete s oid).1.products = restock_items s.products items := by
  unfold admin_order_delete
  cases hf : s.orders.find? (fun o2 => o2.id == oid) with
  | none => exact Or.inl rfl
  | some o =>
    by_cases h : o.status ≠ OrderStatus.cancelled
    · refine Or.inr ⟨o.items, ?_⟩
      show (if o.status ≠ OrderStatus.cancelled then restock_items s.products o.items
        else s.products) = restock_items s.products o.items
      exact if_pos h
    · refine Or.inl ?_
      show (if o.status ≠ OrderStatus.cancelled then restock_items s.products o.items
        else s.products) = s.products
      exact if_neg h

theorem add_to_cart_cart (s : State) (pid : Nat) :
    (add_to_cart s pid).1.cart = s.cart ∨
    (add_to_cart s pid).1.cart = s.cart.map (fun l =>
      if l.productId == pid then { l with quantity := l.quantity + 1 } else l) ∨
    ((add_to_cart s pid).1.cart = s.cart ++ [⟨pid, 1⟩] ∧
      s.cart.find? (fun l => l.productId == pid) = none) := by
  unfold add_to_cart
  split
  · exact Or.inl rfl
  · split
    · exact Or.inl rfl
    · split
      · split
        · exact Or.inl rfl
        · exact Or.inr (Or.inl rfl)
      · next hf =>
        split
        · exact Or.inl rfl
        · exact Or.inr (Or.inr ⟨rfl, hf⟩)

theorem update_cart_item_cart (s : State) (pid : Nat) (q : Int) :
    (update_cart_item s pid q).1.cart = s.cart ∨
    (update_cart_item s pid q).1.cart = s.cart.map (fun l =>
      if l.productId == pid then { l with quantity := q.toNat } else l) ∨
    (update_cart_item s pid q).1.cart = s.cart.filter (fun l => !(l.productId == pid)) := by
  unfold update_cart_item
  split
  · exact Or.inl rfl
  · split
    · exact Or.inl rfl
    · split
      · exact Or.inl rfl
      · split
        · exact Or.inr (Or.inl rfl)
        · exact Or.inr (Or.inr rfl)

theorem remove_from_cart_cart (s : State) (pid : Nat) :
    (remove_from_cart s pid).1.cart = s.cart ∨
    (remove_from_cart s pid).1.cart = s.cart.filter (fun l => !(l.productId == pid)) := by
  unfold remove_from_cart
  split
  · exact Or.inl rfl
  · exact Or.inr rfl

theorem checkout_cart (s : State) (dm pm : Option String) :
    (checkout s dm pm).1.cart = s.cart ∨ (checkout s dm pm).1.cart = [] := by
  unfold checkout
  split
  · exact Or.inl rfl
  · split
    · exact Or.inl rfl
    · exact Or.inr rfl

theorem cancel_order_cart (s : State) (oid : Nat) :
    (cancel_order s oid).1.cart = s.cart := by
  unfold cancel_order
  repeat' split
  all_goals rfl

theorem admin_order_detail_cart (s : State) (oid : Nat) (st? : Option OrderStatus) :
    (admin_order_detail s oid st?).1.cart = s.cart := by
  unfold admin_order_detail
  repeat' split
  all_goals rfl

theorem admin_order_delete_cart (s : State) (oid : Nat) :
    (admin_order_delete s oid).1.cart = s.cart := by
  unfold admin_order_delete
  repeat' split
  all_goals rfl

/-! ### Preservation of well-formedness and stock non-negativity -/

theorem cart_map_pids (cart : List CartLine) (pid : Nat) (f : CartLine → Nat) :
    ((cart.map (fun l => if l.productId == pid then { l with quantity := f l } else l)).map
      CartLine.productId) = cart.map CartLine.productId := by
  rw [List.map_map]
  exact List.map_congr_left (fun l _ => by
    simp only [Function.comp_apply]
    split <;> rfl)

theorem cart_filter_pids_nodup (cart : List CartLine) (g : CartLine → Bool)
    (h : (cart.map CartLine.productId).Nodup) :
    ((cart.filter g).map CartLine.productId).Nodup :=
  List.Nodup.sublist ((List.filter_sublist cart).map CartLine.productId) h

theorem cart_append_new_nodup (cart : List CartLine) (pid : Nat)
    (h : (cart.map CartLine.productId).Nodup)
    (hnone : cart.find? (fun l => l.productId == pid) = none) :
    ((cart ++ [CartLine.mk pid 1]).map CartLine.productId).Nodup := by
  have hmem : pid ∉ cart.map CartLine.productId := by
    intro hm
    obtain ⟨l, hl, hlp⟩ := List.mem_map.mp hm
    have hfl := List.find?_eq_none.mp hnone l hl
    simp [hlp] at hfl
  have hmap : (cart ++ [CartLine.mk pid 1]).map CartLine.productId =
      cart.map CartLine.productId ++ [pid] := by
    rw [List.map_append]
    rfl
  rw [hmap, List.nodup_append]
  refine ⟨h, List.nodup_singleton _, ?_⟩
  intro a ha hb
  rw [List.mem_singleton] at hb
  subst hb
  exact hmem ha

theorem step_stocksNonneg (s : State) (op : Op) (hWF : WF s)
    (hnn : stocksNonneg s.products) : stocksNonneg (step s op).products := by
  obtain ⟨hids, hcart⟩ := hWF
  cases op with
  | add pid =>
    simp only [step]
    rw [add_to_cart_products]
    exact hnn
  | update pid q =>
    simp only [step]
    rw [update_cart_item_products]
    exact hnn
  | remove pid =>
    simp only [step]
    rw [remove_from_cart_products]
    exact hnn
  | doCheckout dm pm =>
    simp only [step]
    rcases checkout_products s dm pm with h | ⟨h, hv⟩
    · rw [h]; exact hnn
    · rw [h, materialize_snd]
      exact stocksNonneg_decfold s.cart s.products hids hcart
        (fun l hl => (validate_cart_ok_of_none s.cart s.products hv l hl).2) hnn
  | cancel oid =>
    simp only [step]
    rcases cancel_order_products s oid with h | ⟨items, h⟩
    · rw [h]; exact hnn
    · rw [h]; exact stocksNonneg_restock items s.products hnn
  | setStatus oid st =>
    simp only [step]
    rcases admin_order_detail_products s oid st with h | ⟨items, h⟩ | ⟨items, h⟩
    · rw [h]; exact hnn
    · rw [h]; exact stocksNonneg_restock items s.products hnn
    · rw [h]; exact stocksNonneg_deplete items s.products hids hnn
  | deleteOrder oid =>
    simp only [step]
    rcases admin_order_delete_products s oid with h | ⟨items, h⟩
    · rw [h]; exact hnn
    · rw [h]; exact stocksNonneg_restock items s.products hnn

theorem step_WF (s : State) (op : Op) (hWF : WF s) : WF (step s op) := by
  obtain ⟨hids, hcart⟩ := hWF
  constructor
  · show ((step s op).products.map Product.id).Nodup
    cases op with
    | add pid =>
      simp only [step]
      rw [add_to_cart_products]
      exact hids
    | update pid q =>
      simp only [step]
      rw [update_cart_item_products]
      exact hids
    | remove pid =>
      simp only [step]
      rw [remove_from_cart_products]
      exact hids
    | doCheckout dm pm =>
      simp only [step]
      rcases checkout_products s dm pm with h | ⟨h, _⟩
      · rw [h]; exact hids
      · rw [h, materialize_snd, decfold_map_id]; exact hids
    | cancel oid =>
      simp only [step]
      rcases cancel_order_products s oid with h | ⟨items, h⟩
      · rw [h]; exact hids
      · rw [h, restock_map_id]; exact hids
    | setStatus oid st =>
      simp only [step]
      rcases admin_order_detail_products s oid st with h | ⟨items, h⟩ | ⟨items, h⟩
      · rw [h]; exact hids
      · rw [h, restock_map_id]; exact hids
      · rw [h, deplete_map_id]; exact hids
    | deleteOrder oid =>
      simp only [step]
      rcases admin_order_delete_products s oid with h | ⟨items, h⟩
      · rw [h]; exact hids
      · rw [h, restock_map_id]; exact hids
  · show ((step s op).cart.map CartLine.productId).Nodup
    cases op with
    | add pid =>
      simp only [step]
      rcases add_to_cart_cart s pid with h | h | ⟨h, hnone⟩
      · rw [h]; exact hcart
      · rw [h, cart_map_pids]; exact hcart
      · rw [h]; exact cart_append_new_nodup s.cart pid hcart hnone
    | update pid q =>
      simp only [step]
      rcases update_cart_item_cart s pid q with h | h | h
      · rw [h]; exact hcart
      · rw [h, cart_map_pids]; exact hcart
      · rw [h]; exact cart_filter_pids_nodup s.cart _ hcart
    | remove pid =>
      simp only [step]
      rcases remove_from_cart_cart s pid with h | h
      · rw [h]; exact hcart
      · rw [h]; exact cart_filter_pids_nodup s.cart _ hcart
    | doCheckout dm pm =>
      simp only [step]
      rcases checkout_cart s dm pm with h | h
      · rw [h]; exact hcart
      · rw [h]; exact List.nodup_nil
    | cancel oid =>
      simp only [step]
      rw [cancel_order_cart]
      exact hcart
    | setStatus oid st =>
      simp only [step]
      rw [admin_order_detail_cart]
      exact hcart
    | deleteOrder oid =>
      simp only [step]
      rw [admin_order_delete_cart]
      exact hcart

/-! ### The claims -/

/-- C1: from a well-formed state (unique product rows, unique cart lines)
whose stocks are all non-negative, every sequence of engine operations
(add_to_cart, update_cart_item, remove_from_cart, checkout, cancel_order,
admin status change, admin order deletion) keeps every product's stock
non-negative after each operation. -/
theorem stock_nonneg_invariant (s : State) (ops : List Op)
    (hWF : WF s) (hnn : stocksNonneg s.products) :
    stocksNonneg (run_ops s ops).products := by
  induction ops generalizing s with
  | nil => exact hnn
  | cons op rest ih =>
    show stocksNonneg (List.foldl step (step s op) rest).products
    exact ih (step s op) (step_WF s op hWF) (step_stocksNonneg s op hWF hnn)

def demoState : State :=
  { products := [⟨1, 100, 3⟩, ⟨2, 250, 5⟩]
    cart := []
    orders := []
    nextOrderId := 1 }

theorem stock_nonneg_invariant_witness :
    WF demoState ∧ stocksNonneg demoState.products ∧
      stocksNonneg (run_ops demoState
        [Op.add 1, Op.add 1, Op.doCheckout (some deliveryStr) none,
          Op.setStatus 1 (some OrderStatus.cancelled),
          Op.setStatus 1 (some OrderStatus.processing), Op.cancel 1,
          Op.deleteOrder 1, Op.update 2 (-3), Op.remove 2]).products :=
  ⟨⟨by decide, by decide⟩, by decide,
    stock_nonneg_invariant demoState _ ⟨by decide, by decide⟩ (by decide)⟩

/-- C2: checkout on a non-empty cart containing a line whose quantity exceeds
its product's stock fails with InsufficientStock naming an offending product
and commits nothing: the returned state is the starting state, so no Order or
OrderItem exists and every stock and cart line is unchanged. -/
theorem checkout_insufficient_rejects (s : State) (dm pm : Option String)
    (hne : s.cart ≠ [])
    (hpres : ∀ l ∈ s.cart, (findProduct s.products l.productId).isSome)
    (hbad : ∃ l ∈ s.cart, (l.quantity : Int) > stockOf s.products l.productId) :
    ∃ pid, checkout s dm pm = (s, Except.error (Err.InsufficientStock pid)) ∧
      ∃ l ∈ s.cart, l.productId = pid ∧
        (l.quantity : Int) > stockOf s.products l.productId := by
  obtain ⟨pid, hval, l, hl, hpid, hq⟩ :=
    validate_cart_error s.cart s.products hpres hbad
  refine ⟨pid, ?_, l, hl, hpid, hq⟩
  have hie : ¬ (s.cart.isEmpty = true) := fun h2 => hne (List.isEmpty_iff.mp h2)
  unfold checkout
  rw [if_neg hie]
  simp only [hval]

def c2State : State :=
  { products := [⟨1, 100, 3⟩], cart := [⟨1, 5⟩], orders := [], nextOrderId := 1 }

theorem checkout_insufficient_rejects_witness :
    c2State.cart ≠ [] ∧
    ∃ pid, checkout c2State none none =
        (c2State, Except.error (Err.InsufficientStock pid)) ∧
      ∃ l ∈ c2State.cart, l.productId = pid ∧
        (l.quantity : Int) > stockOf c2State.products l.productId :=
  ⟨by decide,
    checkout_insufficient_rejects c2State none none (by decide) (by decide) (by decide)⟩

/-- How a checkout that passes validation rewrites the whole state: this is
the shared backbone of the functional-correctness claims about checkout. -/
theorem checkout_success_spec (s : State) (dm pm : Option String)
    (hne : s.cart ≠ [])
    (hok : ∀ l ∈ s.cart, (findProduct s.products l.productId).isSome ∧
      (l.quantity : Int) ≤ stockOf s.products l.productId) :
    checkout s dm pm =
      ({ products := (materialize s.products s.cart).2
         cart := []
         orders := s.orders ++
           [{ id := s.nextOrderId
              status := OrderStatus.new
              deliveryMethod := dm.getD pickupStr
              paymentMethod := pm.getD onlineStr
              totalPrice := cart_total_price s.products s.cart +
                (if dm = some deliveryStr then delivery_fee else 0)
              items := (materialize s.products s.cart).1 }]
         nextOrderId := s.nextOrderId + 1 }, Except.ok s.nextOrderId) := by
  have hie : ¬ (s.cart.isEmpty = true) := fun h2 => hne (List.isEmpty_iff.mp h2)
  have hval : validate_cart s.products s.cart = none :=
    validate_cart_of_ok s.cart s.products hok
  unfold checkout
  rw [if_neg hie]
  simp only [hval]

/-- C3: a checkout in which every cart line fits the current stock succeeds:
it returns the new order's id, the order is appended with status `new` and
one frozen OrderItem per cart line capturing (product, quantity, the price at
checkout time), each referenced product's stock drops by exactly that line's
quantity, and the cart is left empty. -/
theorem checkout_success (s : State) (dm pm : Option String)
    (hne : s.cart ≠ [])
    (hcart : (s.cart.map CartLine.productId).Nodup)
    (hok : ∀ l ∈ s.cart, (findProduct s.products l.productId).isSome ∧
      (l.quantity : Int) ≤ stockOf s.products l.productId) :
    ∃ s2, checkout s dm pm = (s2, Except.ok s.nextOrderId) ∧
      s2.cart = [] ∧
      (∃ ord, s2.orders = s.orders ++ [ord] ∧ ord.id = s.nextOrderId ∧
        ord.status = OrderStatus.new ∧
        ord.items = s.cart.map (fun l =>
          OrderLine.mk l.productId l.quantity (priceOf s.products l.productId))) ∧
      (∀ l ∈ s.cart, stockOf s2.products l.productId =
        stockOf s.products l.productId - (l.quantity : Int)) := by
  refine ⟨_, checkout_success_spec s dm pm hne hok, rfl,
    ⟨{ id := s.nextOrderId
       status := OrderStatus.new
       deliveryMethod := dm.getD pickupStr
       paymentMethod := pm.getD onlineStr
       totalPrice := cart_total_price s.products s.cart +
         (if dm = some deliveryStr then delivery_fee else 0)
       items := (materialize s.products s.cart).1 },
      rfl, rfl, rfl, materialize_fst s.cart s.products⟩, ?_⟩
  intro l hl
  show stockOf (materialize s.products s.cart).2 l.productId = _
  rw [materialize_snd]
  exact stockOf_decfold_of_mem s.cart s.products l hcart hl (hok l hl).1

def c3State : State :=
  { products := [⟨1, 100, 3⟩, ⟨2, 40, 9⟩], cart := [⟨1, 2⟩, ⟨2, 9⟩],
    orders := [], nextOrderId := 7 }

theorem checkout_success_witness :
    ∃ s2, checkout c3State none none = (s2, Except.ok c3State.nextOrderId) ∧
      s2.cart = [] ∧
      (∃ ord, s2.orders = c3State.orders ++ [ord] ∧ ord.id = c3State.nextOrderId ∧
        ord.status = OrderStatus.new ∧
        ord.items = c3State.cart.map (fun l =>
          OrderLine.mk l.productId l.quantity (priceOf c3State.products l.productId))) ∧
      (∀ l ∈ c3State.cart, stockOf s2.products l.productId =
        stockOf c3State.products l.productId - (l.quantity : Int)) :=
  checkout_success c3State none none (by decide) (by decide) (by decide)

/-- C4: the stored total of an order created by checkout is the sum over the
cart lines of quantity times the product's price at checkout time, plus the
flat delivery fee of 500 exactly when the order's delivery method is
"delivery", and the bare sum otherwise. -/
theorem checkout_total_price (s : State) (dm pm : Option String)
    (hne : s.cart ≠ [])
    (hok : ∀ l ∈ s.cart, (findProduct s.products l.productId).isSome ∧
      (l.quantity : Int) ≤ stockOf s.products l.productId) :
    ∃ s2 ord, checkout s dm pm = (s2, Except.ok ord.id) ∧
      s2.orders = s.orders ++ [ord] ∧
      ord.totalPrice =
        (s.cart.map (fun l => (l.quantity : Int) * priceOf s.products l.productId)).sum +
          (if ord.deliveryMethod = deliveryStr then delivery_fee else 0) := by
  refine ⟨_,
    { id := s.nextOrderId
      status := OrderStatus.new
      deliveryMethod := dm.getD pickupStr
      paymentMethod := pm.getD onlineStr
      totalPrice := cart_total_price s.products s.cart +
        (if dm = some deliveryStr then delivery_fee else 0)
      items := (materialize s.products s.cart).1 },
    checkout_success_spec s dm pm hne hok, rfl, ?_⟩
  have hsum : cart_total_price s.products s.cart =
      (s.cart.map (fun l => (l.quantity : Int) * priceOf s.products l.productId)).sum := by
    unfold cart_total_price line_total
    congr 1
    exact List.map_congr_left (fun l _ => by ring)
  have hdm : (dm.getD pickupStr = deliveryStr) ↔ (dm = some deliveryStr) := by
    cases dm with
    | none => decide
    | some x => simp
  show cart_total_price s.products s.cart +
      (if dm = some deliveryStr then delivery_fee else 0) =
    (s.cart.map (fun l => (l.quantity : Int) * priceOf s.products l.productId)).sum +
      (if dm.getD pickupStr = deliveryStr then delivery_fee else 0)
  rw [hsum]
  by_cases h : dm = some deliveryStr
  · rw [if_pos h, if_pos (hdm.mpr h)]
  · rw [if_neg h, if_neg (fun hc => h (hdm.mp hc))]

def c4State : State :=
  { products := [⟨1, 100, 3⟩], cart := [⟨1, 2⟩], orders := [], nextOrderId := 1 }

theorem checkout_total_price_witness :
    ∃ s2 ord, checkout c4State (some deliveryStr) none = (s2, Except.ok ord.id) ∧
      s2.orders = c4State.orders ++ [ord] ∧
      ord.totalPrice =
        (c4State.cart.map (fun l =>
          (l.quantity : Int) * priceOf c4State.products l.productId)).sum +
          (if ord.deliveryMethod = deliveryStr then delivery_fee else 0) :=
  checkout_total_price c4State (some deliveryStr) none (by decide) (by decide)

/-- C5 evidence: restoring order 1 out of `cancelled` when its second line
(product 2, quantity 5) exceeds the available stock 3 fails with
InsufficientStock on product 2, yet product 1's stock has already been
decremented from 10 to 8 by the failed attempt: the multi-step mutation is
not all-or-nothing. -/
def c5State : State :=
  { products := [⟨1, 100, 10⟩, ⟨2, 100, 3⟩]
    cart := []
    orders :=
      [{ id := 1
         status := OrderStatus.cancelled
         deliveryMethod := pickupStr
         paymentMethod := onlineStr
         totalPrice := 700
         items := [⟨1, 2, 100⟩, ⟨2, 5, 100⟩] }]
    nextOrderId := 2 }

theorem admin_restore_partial_decrement :
    (admin_order_detail c5State 1 (some OrderStatus.new)).2 =
        some (Err.InsufficientStock 2) ∧
      stockOf (admin_order_detail c5State 1 (some OrderStatus.new)).1.products 1 = 8 ∧
      stockOf c5State.products 1 = 10 := by
  refine ⟨by decide, by decide, by decide⟩

/-- C6: cancelling a non-cancelled order adds every line's quantity to its
product's stock, and restoring it afterwards (status change away from
`cancelled`, which then necessarily fits the stock) subtracts the same
quantities again: the round trip leaves every product's stock at its
original value. -/
theorem cancel_restore_round_trip (s : State) (oid : Nat) (o : Order)
    (st2 : OrderStatus)
    (hfind : s.orders.find? (fun o2 => o2.id == oid) = some o)
    (hst : o.status ≠ OrderStatus.cancelled)
    (hst2 : st2 ≠ OrderStatus.cancelled)
    (hNodupI : (o.items.map OrderLine.productId).Nodup)
    (hpres : ∀ l ∈ o.items, (findProduct s.products l.productId).isSome)
    (hnn : ∀ l ∈ o.items, 0 ≤ stockOf s.products l.productId) :
    ∃ s1 s2,
      admin_order_detail s oid (some OrderStatus.cancelled) = (s1, none) ∧
      (∀ l ∈ o.items, stockOf s1.products l.productId =
        stockOf s.products l.productId + (l.quantity : Int)) ∧
      admin_order_detail s1 oid (some st2) = (s2, none) ∧
      (∀ pid, stockOf s2.products pid = stockOf s.products pid) := by
  have hdep : deplete_items (restock_items s.products o.items) o.items =
      (s.products, none) := deplete_restock o.items s.products hpres hnn
  refine ⟨{ s with
      products := restock_items s.products o.items
      orders := set_order_status s.orders oid OrderStatus.cancelled },
    { products := s.products
      cart := s.cart
      orders := set_order_status
        (set_order_status s.orders oid OrderStatus.cancelled) oid st2
      nextOrderId := s.nextOrderId }, ?_, ?_, ?_, fun pid => rfl⟩
  · simp only [admin_order_detail, hfind]
    rw [if_neg (fun h => hst h.symm), if_pos ⟨by trivial, hst⟩]
  · intro l hl
    exact stockOf_restock_of_mem o.items s.products l hNodupI hl (hpres l hl)
  · have hfind1 : (set_order_status s.orders oid OrderStatus.cancelled).find?
        (fun o2 => o2.id == oid) = some { o with status := OrderStatus.cancelled } :=
      find_set_order_status_some s.orders oid OrderStatus.cancelled o hfind
    simp only [admin_order_detail, hfind1]
    rw [if_neg ?c1, if_neg ?c2, if_pos ?c3]
    case c1 => exact fun h => hst2 (by simpa using h)
    case c2 => exact fun h => hst2 h.1
    case c3 => exact ⟨by trivial, hst2⟩
    simp only [hdep]

def c6State : State :=
  { products := [⟨1, 100, 5⟩, ⟨2, 200, 7⟩]
    cart := []
    orders :=
      [{ id := 1
         status := OrderStatus.new
         deliveryMethod := pickupStr
         paymentMethod := onlineStr
         totalPrice := 400
         items := [⟨1, 2, 100⟩, ⟨2, 1, 200⟩] }]
    nextOrderId := 2 }

def c6Order : Order :=
  { id := 1
    status := OrderStatus.new
    deliveryMethod := pickupStr
    paymentMethod := onlineStr
    totalPrice := 400
    items := [⟨1, 2, 100⟩, ⟨2, 1, 200⟩] }

theorem cancel_restore_round_trip_witness :
    ∃ s1 s2,
      admin_order_detail c6State 1 (some OrderStatus.cancelled) = (s1, none) ∧
      (∀ l ∈ c6Order.items, stockOf s1.products l.productId =
        stockOf c6State.products l.productId + (l.quantity : Int)) ∧
      admin_order_detail s1 1 (some OrderStatus.processing) = (s2, none) ∧
      (∀ pid, stockOf s2.products pid = stockOf c6State.products pid) :=
  cancel_restore_round_trip c6State 1 c6Order OrderStatus.processing
    (by decide) (by decide) (by decide) (by decide) (by decide) (by decide)

/-- C7: an admin status change of a `cancelled` order to a non-`cancelled`
status, when some order line's quantity exceeds its product's current stock,
fails with InsufficientStock naming an offending product and leaves the order
list — and hence the order's `cancelled` status — untouched. -/
theorem admin_restore_insufficient (s : State) (oid : Nat) (o : Order)
    (st : OrderStatus)
    (hfind : s.orders.find? (fun o2 => o2.id == oid) = some o)
    (hc : o.status = OrderStatus.cancelled)
    (hst : st ≠ OrderStatus.cancelled)
    (hpres : ∀ l ∈ o.items, (findProduct s.products l.productId).isSome)
    (hNodupI : (o.items.map OrderLine.productId).Nodup)
    (hbad : ∃ l ∈ o.items, (l.quantity : Int) > stockOf s.products l.productId) :
    ∃ pid s2,
      admin_order_detail s oid (some st) = (s2, some (Err.InsufficientStock pid)) ∧
      (∃ l ∈ o.items, l.productId = pid ∧
        (l.quantity : Int) > stockOf s.products l.productId) ∧
      s2.orders = s.orders ∧
      s2.orders.find? (fun o2 => o2.id == oid) = some o := by
  obtain ⟨pid, ps2, hdep, hoff⟩ :=
    deplete_items_error o.items s.products hpres hNodupI hbad
  refine ⟨pid, { s with products := ps2 }, ?_, hoff, rfl, hfind⟩
  simp only [admin_order_detail, hfind]
  rw [if_neg ?c1, if_neg ?c2, if_pos ?c3]
  case c1 => exact fun h => hst (h.trans hc)
  case c2 => exact fun h => hst h.1
  case c3 => exact ⟨hc, hst⟩
  simp only [hdep]

def c7State : State :=
  { products := [⟨1, 100, 10⟩, ⟨2, 100, 3⟩]
    cart := []
    orders :=
      [{ id := 1
         status := OrderStatus.cancelled
         deliveryMethod := pickupStr
         paymentMethod := onlineStr
         totalPrice := 700
         items := [⟨1, 2, 100⟩, ⟨2, 5, 100⟩] }]
    nextOrderId := 2 }

def c7Order : Order :=
  { id := 1
    status := OrderStatus.cancelled
    deliveryMethod := pickupStr
    paymentMethod := onlineStr
    totalPrice := 700
    items := [⟨1, 2, 100⟩, ⟨2, 5, 100⟩] }

theorem admin_restore_insufficient_witness :
    ∃ pid s2,
      admin_order_detail c7State 1 (some OrderStatus.paid) =
        (s2, some (Err.InsufficientStock pid)) ∧
      (∃ l ∈ c7Order.items, l.productId = pid ∧
        (l.quantity : Int) > stockOf c7State.products l.productId) ∧
      s2.orders = c7State.orders ∧
      s2.orders.find? (fun o2 => o2.id == 1) = some c7Order :=
  admin_restore_insufficient c7State 1 c7Order OrderStatus.paid
    (by decide) (by decide) (by decide) (by decide) (by decide) (by decide)

/-- C8: user cancellation succeeds exactly on a `new` order: then each line's
quantity is added back to its product's stock and the status becomes
`cancelled`; on any other status it fails with InvalidTransition and the
whole state — statuses and stocks included — is unchanged. -/
theorem cancel_order_spec (s : State) (oid : Nat) (o : Order)
    (hfind : s.orders.find? (fun o2 => o2.id == oid) = some o)
    (hpres : ∀ l ∈ o.items, (findProduct s.products l.productId).isSome)
    (hNodupI : (o.items.map OrderLine.productId).Nodup) :
    (o.status = OrderStatus.new →
      ∃ s2, cancel_order s oid = (s2, none) ∧
        s2.orders.find? (fun o2 => o2.id == oid) =
          some { o with status := OrderStatus.cancelled } ∧
        (∀ l ∈ o.items, stockOf s2.products l.productId =
          stockOf s.products l.productId + (l.quantity : Int))) ∧
    (o.status ≠ OrderStatus.new →
      cancel_order s oid = (s, some Err.InvalidTransition)) := by
  constructor
  · intro hnew
    refine ⟨{ s with
        products := restock_items s.products o.items
        orders := set_order_status s.orders oid OrderStatus.cancelled },
      ?_, ?_, ?_⟩
    · simp only [cancel_order, hfind]
      rw [if_pos hnew]
    · exact find_set_order_status_some s.orders oid OrderStatus.cancelled o hfind
    · intro l hl
      exact stockOf_restock_of_mem o.items s.products l hNodupI hl (hpres l hl)
  · intro hnot
    simp only [cancel_order, hfind]
    rw [if_neg hnot]

def c8State : State :=
  { products := [⟨1, 100, 5⟩, ⟨2, 200, 7⟩]
    cart := []
    orders :=
      [{ id := 1
         status := OrderStatus.new
         deliveryMethod := pickupStr
         paymentMethod := onlineStr
         totalPrice := 400
         items := [⟨1, 2, 100⟩, ⟨2, 1, 200⟩] }]
    nextOrderId := 2 }

def c8Order : Order :=
  { id := 1
    status := OrderStatus.new
    deliveryMethod := pickupStr
    paymentMethod := onlineStr
    totalPrice := 400
    items := [⟨1, 2, 100⟩, ⟨2, 1, 200⟩] }

theorem cancel_order_spec_witness :
    (c8Order.status = OrderStatus.new →
      ∃ s2, cancel_order c8State 1 = (s2, none) ∧
        s2.orders.find? (fun o2 => o2.id == 1) =
          some { c8Order with status := OrderStatus.cancelled } ∧
        (∀ l ∈ c8Order.items, stockOf s2.products l.productId =
          stockOf c8State.products l.productId + (l.quantity : Int))) ∧
    (c8Order.status ≠ OrderStatus.new →
      cancel_order c8State 1 = (c8State, some Err.InvalidTransition)) :=
  cancel_order_spec c8State 1 c8Order (by decide) (by decide) (by decide)

/-- C9: add_to_cart on a product with stock at most 0 fails with OutOfStock
and changes nothing; with positive stock and an existing cart line it
increments that line's quantity by one exactly when the incremented quantity
still fits the stock, and otherwise fails with InsufficientStock leaving the
line untouched. -/
theorem add_to_cart_spec (s : State) (pid : Nat) (p : Product)
    (hfind : findProduct s.products pid = some p) :
    (p.stock ≤ 0 → add_to_cart s pid = (s, some (Err.OutOfStock pid))) ∧
    (∀ item, 0 < p.stock →
      s.cart.find? (fun l => l.productId == pid) = some item →
      (((item.quantity : Int) + 1 > p.stock →
        add_to_cart s pid = (s, some (Err.InsufficientStock pid))) ∧
      ((item.quantity : Int) + 1 ≤ p.stock →
        add_to_cart s pid = ({ s with cart := s.cart.map (fun l =>
          if l.productId == pid then { l with quantity := l.quantity + 1 } else l) },
          none)))) := by
  constructor
  · intro hle
    simp only [add_to_cart, hfind]
    rw [if_pos hle]
  · intro item hpos hitem
    constructor
    · intro hover
      simp only [add_to_cart, hfind, hitem]
      rw [if_neg (by omega), if_pos hover]
    · intro hle
      simp only [add_to_cart, hfind, hitem]
      rw [if_neg (by omega), if_neg (by omega)]

def c9State : State :=
  { products := [⟨1, 100, 0⟩, ⟨2, 50, 4⟩, ⟨3, 60, 2⟩]
    cart := [⟨2, 3⟩, ⟨3, 2⟩]
    orders := []
    nextOrderId := 1 }

theorem add_to_cart_spec_witness :
    (((1 : Int) ≤ 0 → False) ∧
      add_to_cart c9State 1 = (c9State, some (Err.OutOfStock 1))) ∧
    (add_to_cart c9State 2 = ({ c9State with cart := c9State.cart.map (fun l =>
        if l.productId == 2 then { l with quantity := l.quantity + 1 } else l) },
      none)) ∧
    add_to_cart c9State 3 = (c9State, some (Err.InsufficientStock 3)) := by
  refine ⟨⟨by omega, ?_⟩, ?_, ?_⟩
  · exact (add_to_cart_spec c9State 1 ⟨1, 100, 0⟩ (by decide)).1 (by decide)
  · exact ((add_to_cart_spec c9State 2 ⟨2, 50, 4⟩ (by decide)).2
      ⟨2, 3⟩ (by decide) (by decide)).2 (by decide)
  · exact ((add_to_cart_spec c9State 3 ⟨3, 60, 2⟩ (by decide)).2
      ⟨3, 2⟩ (by decide) (by decide)).1 (by decide)

/-- C10: when the OutOfStock guard passes (stock at least 1) and no cart line
for the product exists, the freshly created line has quantity 1, which never
exceeds the stock, so the create-then-delete rejection branch is not taken
and adding a new cart line always succeeds. -/
theorem add_to_cart_new_line (s : State) (pid : Nat) (p : Product)
    (hfind : findProduct s.products pid = some p)
    (hstock : 0 < p.stock)
    (hnone : s.cart.find? (fun l => l.productId == pid) = none) :
    add_to_cart s pid = ({ s with cart := s.cart ++ [CartLine.mk pid 1] }, none) := by
  simp only [add_to_cart, hfind, hnone]
  rw [if_neg (by omega), if_neg (by omega)]

def c10State : State :=
  { products := [⟨1, 100, 1⟩]
    cart := []
    orders := []
    nextOrderId := 1 }

theorem add_to_cart_new_line_witness :
    add_to_cart c10State 1 =
      ({ c10State with cart := c10State.cart ++ [CartLine.mk 1 1] }, none) :=
  add_to_cart_new_line c10State 1 ⟨1, 100, 1⟩ (by decide) (by decide) (by decide)

end Store
